import Mathlib

set_option autoImplicit false

/-!
Verification of the Formation Tops viewer (formation_tops_app.py).

The app keeps a process-local list of well records (wells_data).  A form
submission parses comma-separated formation names and depths, validates the
two lists have equal length, and either appends a new record or replaces the
first record whose name matches the selected edit target.  A delete button
filters out every record carrying the selected name.  An interpolation
section gathers the (x, y, depth) points of a chosen formation and, when at
least 3 such points exist, builds a 100 by 100 grid spanning their x and y
ranges; otherwise it shows a warning.

Numeric values (coordinates, depths) are modelled as rationals.  Submission
logic is parameterised by the token parser pf, standing for the Python
float() builtin: the validated behaviour depends only on whether each token
parses, never on the parsed value's arithmetic.  A concrete decimal parser
pyFloat instantiates pf in the witnesses.
-/

/-- A stored well record, mirroring the dict built at lines 44 to 50 of the
source: well_name, x, y, formations, depths. -/
structure Well where
  well_name : String
  x : ℚ
  y : ℚ
  formations : List String
  depths : List ℚ
  deriving DecidableEq, Repr

/-- The raw content of the well_form on submission (lines 27 to 34 of the
source): the name text field, the two numeric location inputs, the two
comma-separated text areas, and the edit selectbox where none models the
literal "None" choice. -/
structure Submission where
  well_name : String
  x_loc : ℚ
  y_loc : ℚ
  formation_names : String
  formation_depths : String
  edit_index : Option String
  deriving DecidableEq, Repr

/-- The message the submission branch emits: the two st.error calls
(lines 42 and 62), the two st.success calls (lines 56 and 60), or silence
when the edit loop finds no matching record. -/
inductive SubmitOutcome where
  | countMismatchError
  | valueError
  | updated (name : String)
  | added (name : String)
  | editNoMatch
  deriving DecidableEq, Repr

/-- Splitting a character list at every occurrence of the separator, the
accumulator holding the current token reversed.  This is the semantics of
the Python str.split call with an explicit one-character separator: the
result is always nonempty and empty tokens are kept. -/
def splitCharAux (sep : Char) : List Char → List Char → List String
  | [], acc => [String.mk acc.reverse]
  | c :: cs, acc =>
    if c = sep then String.mk acc.reverse :: splitCharAux sep cs []
    else splitCharAux sep cs (c :: acc)

/-- The Python str.split call with a one-character separator. -/
def splitChar (sep : Char) (s : String) : List String :=
  splitCharAux sep s.toList []

/-- The Python str.strip call: drop whitespace from both ends. -/
def pyStrip (s : String) : String :=
  String.mk (((s.toList.dropWhile Char.isWhitespace).reverse.dropWhile
    Char.isWhitespace).reverse)

/-- Line 39: formations given by splitting the text area on commas and
stripping each token. -/
def parsedFormations (s : Submission) : List String :=
  (splitChar ',' s.formation_names).map pyStrip

/-- Line 40: the depth list comprehension.  Each comma-separated token is
stripped and handed to the float parser pf; the first failing token aborts
the whole parse (the ValueError propagates), yielding none. -/
def parseAll (pf : String → Option ℚ) : List String → Option (List ℚ)
  | [] => some []
  | t :: ts =>
    match pf (pyStrip t) with
    | none => none
    | some v => (parseAll pf ts).map (fun vs => v :: vs)

/-- The parsed depth list of a submission (line 40). -/
def parsedDepths (pf : String → Option ℚ) (s : Submission) : Option (List ℚ) :=
  parseAll pf (splitChar ',' s.formation_depths)

/-- The new_entry dict of lines 44 to 50, given the already parsed depths. -/
def newEntry (s : Submission) (depths : List ℚ) : Well :=
  ⟨s.well_name, s.x_loc, s.y_loc, parsedFormations s, depths⟩

/-- The edit loop of lines 53 to 57: scan wells_data, replace the first
record whose well_name equals the target with e and stop; the Bool records
whether a match was found (whether st.success fired). -/
def updateFirst (t : String) (e : Well) : List Well → List Well × Bool
  | [] => ([], false)
  | w :: ws =>
    if w.well_name = t then (e :: ws, true)
    else
      let r := updateFirst t e ws
      (w :: r.1, r.2)

/-- The whole submission branch, lines 37 to 62: parse depths (a ValueError
lands in the except branch of line 61), check the two lists have equal
length (line 41), then either replace via the edit loop (lines 51 to 57) or
append (lines 58 to 60).  Returns the new wells_data and the outcome. -/
def submitWell (pf : String → Option ℚ) (s : Submission) (wells : List Well) :
    List Well × SubmitOutcome :=
  match parsedDepths pf s with
  | none => (wells, SubmitOutcome.valueError)
  | some depths =>
    if (parsedFormations s).length ≠ depths.length then
      (wells, SubmitOutcome.countMismatchError)
    else
      match s.edit_index with
      | some t =>
        ((updateFirst t (newEntry s depths) wells).1,
          if (updateFirst t (newEntry s depths) wells).2 then SubmitOutcome.updated t
          else SubmitOutcome.editNoMatch)
      | none => (wells ++ [newEntry s depths], SubmitOutcome.added s.well_name)

/-- The delete handler, line 69: keep exactly the records whose well_name
differs from the selected name. -/
def deleteWell (n : String) (wells : List Well) : List Well :=
  wells.filter (fun w => w.well_name ≠ n)

/-- States of wells_data reachable from the initial empty list (line 13)
by form submissions and delete clicks. -/
inductive Reachable : List Well → Prop
  | init : Reachable []
  | submit (pf : String → Option ℚ) (s : Submission) {l : List Well} :
      Reachable l → Reachable (submitWell pf s l).1
  | delete (n : String) {l : List Well} :
      Reachable l → Reachable (deleteWell n l)

/-- The equal-lengths invariant of the data model: every stored record has
as many formation names as depths. -/
def WF (wells : List Well) : Prop :=
  ∀ w ∈ wells, w.formations.length = w.depths.length

/-- Names act as a key: no two stored records share a well_name. -/
def uniqNames (wells : List Well) : Prop :=
  (wells.map Well.well_name).Nodup

/-- A value of a digit character. -/
def digitVal (c : Char) : Option ℕ :=
  if c.isDigit then some (c.toNat - 48) else none

/-- A nonempty all-digit string read as a natural number. -/
def natPart (s : String) : Option ℕ :=
  match s.toList with
  | [] => none
  | cs => cs.foldlM (fun acc c => (digitVal c).map (fun d => acc * 10 + d)) 0

/-- An unsigned decimal numeral: digits, digits dot digits, dot digits, or
digits dot. -/
def pyFloatUnsigned (s : String) : Option ℚ :=
  match splitChar '.' s with
  | [w] => (natPart w).map (fun n => (n : ℚ))
  | [w, f] =>
    if w.toList.isEmpty && f.toList.isEmpty then none
    else if w.toList.isEmpty then
      (natPart f).map (fun m => (m : ℚ) / 10 ^ f.toList.length)
    else if f.toList.isEmpty then (natPart w).map (fun n => (n : ℚ))
    else
      (natPart w).bind (fun n =>
        (natPart f).map (fun m => (n : ℚ) + (m : ℚ) / 10 ^ f.toList.length))
  | _ => none

/-- A concrete stand-in for the Python float() builtin on plain signed
decimal numerals (no exponent, infinity or nan forms), used to instantiate
the parser parameter in witnesses. -/
def pyFloat (s : String) : Option ℚ :=
  match s.toList with
  | [] => none
  | c :: rest =>
    if c = '-' then (pyFloatUnsigned (String.mk rest)).map (fun q => -q)
    else if c = '+' then pyFloatUnsigned (String.mk rest)
    else pyFloatUnsigned s

/-- One flattened row of map_data (lines 102 to 112): a well and one of its
(formation, depth) pairs together with the well location. -/
structure MapPoint where
  well : String
  formation : String
  x : ℚ
  y : ℚ
  depth : ℚ
  deriving DecidableEq, Repr

/-- The map_data list of lines 102 to 112: for every well, one row per
zipped (formation, depth) pair. -/
def mapData (wells : List Well) : List MapPoint :=
  (wells.map (fun w =>
    (w.formations.zip w.depths).map (fun p => ⟨w.well_name, p.1, w.x, w.y, p.2⟩))).flatten

/-- Line 135: selecting the rows of df_map whose formation column equals
the chosen formation.  When map_data is empty, pd.DataFrame of the empty
list has no formation column at all and the column access raises an
uncaught KeyError, modelled as none; otherwise the frame has the column
and the row selection is the filter. -/
def interpPoints (formation : String) (wells : List Well) :
    Option (List MapPoint) :=
  match mapData wells with
  | [] => none
  | ps => some (ps.filter (fun p => p.formation = formation))

/-- The np.linspace call: n evenly spaced samples from lo to hi
inclusive. -/
def linspace (lo hi : ℚ) (n : ℕ) : List ℚ :=
  (List.range n).map (fun i : ℕ => lo + (i : ℚ) * (hi - lo) / ((n : ℚ) - 1))

/-- The np.meshgrid call on sample lists xs and ys: the first matrix
repeats xs on every row, the second holds a constant row per entry of
ys; both have ys.length rows of xs.length entries. -/
def meshgrid (xs ys : List ℚ) : List (List ℚ) × List (List ℚ) :=
  (ys.map (fun _ => xs), ys.map (fun y => xs.map (fun _ => y)))

/-- The minimum of a list of rationals (the empty case is never reached
where this is used: at least 3 points exist). -/
def listMin : List ℚ → ℚ
  | [] => 0
  | q :: qs => qs.foldl min q

/-- The maximum of a list of rationals. -/
def listMax : List ℚ → ℚ
  | [] => 0
  | q :: qs => qs.foldl max q

/-- What the interpolation section produces: the uncaught KeyError of
line 135 when map_data is empty (the section halts before the length
check, so neither chart nor warning appears), the warning of line 156, or
the coordinate grid of lines 137 to 140.  The grid_z values of the scipy
griddata call are an opaque library result and are not part of any checked
property. -/
inductive InterpResult where
  | keyError
  | warning (msg : String)
  | grid (gx gy : List (List ℚ))
  deriving DecidableEq, Repr

/-- The interpolation section, lines 134 to 156: select the rows of the
chosen formation (line 135 raises KeyError on an empty, column-less
df_map), require at least 3 points, and build the meshgrid of two
100-sample linspaces over the x and y ranges of those points. -/
def interpSection (formation : String) (wells : List Well) : InterpResult :=
  match interpPoints formation wells with
  | none => InterpResult.keyError
  | some pts =>
    if pts.length ≥ 3 then
      let xs := pts.map MapPoint.x
      let ys := pts.map MapPoint.y
      let g := meshgrid (linspace (listMin xs) (listMax xs) 100)
                        (linspace (listMin ys) (listMax ys) 100)
      InterpResult.grid g.1 g.2
    else
      InterpResult.warning "Need at least 3 points for interpolation."

/-- A demo submission used in witnesses: add well W1 at the origin with one
formation A at depth 1. -/
def sAdd : Submission :=
  ⟨"W1", 0, 0, "A", "1", none⟩

/-- A demo submission used in witnesses: with well A selected for editing,
save name W9 with one formation A at depth 1. -/
def sEdit : Submission :=
  ⟨"W9", 0, 0, "A", "1", some "A"⟩

/-- A demo stored well named A. -/
def wA : Well :=
  ⟨"A", 0, 0, ["Top_Shale"], [500]⟩

/-- A demo stored well named B. -/
def wB : Well :=
  ⟨"B", 1, 2, ["Top_Shale"], [600]⟩

/-- A second demo well also named A, at a different location. -/
def wA2 : Well :=
  ⟨"A", 5, 5, ["Sand_A"], [700]⟩

/-- Three demo wells all carrying formation Top_Shale at distinct
locations. -/
def demoWells : List Well :=
  [⟨"W1", 0, 0, ["Top_Shale"], [100]⟩,
   ⟨"W2", 1, 0, ["Top_Shale"], [200]⟩,
   ⟨"W3", 0, 1, ["Top_Shale"], [300]⟩]

/-- The three Top_Shale map points of the demo wells, as selected by
line 135. -/
def demoPts : List MapPoint :=
  [⟨"W1", "Top_Shale", 0, 0, 100⟩,
   ⟨"W2", "Top_Shale", 1, 0, 200⟩,
   ⟨"W3", "Top_Shale", 0, 1, 300⟩]

theorem parseAll_eq_none (pf : String → Option ℚ) (toks : List String)
    (tok : String) (hm : tok ∈ toks) (hf : pf (pyStrip tok) = none) :
    parseAll pf toks = none := by
  induction toks with
  | nil => cases hm
  | cons t ts ih =>
    rcases List.mem_cons.mp hm with h | h
    · subst h
      simp [parseAll, hf]
    · unfold parseAll
      cases hpt : pf (pyStrip t) with
      | none => rfl
      | some v => simp [ih h]

/-- C1: a submission whose depth tokens all parse but whose formation and
depth lists have unequal length is rejected with the count-mismatch error
and wells_data is returned unchanged. -/
theorem submit_unequal_lengths_rejected (pf : String → Option ℚ)
    (s : Submission) (wells : List Well) (ds : List ℚ)
    (hp : parsedDepths pf s = some ds)
    (hne : (parsedFormations s).length ≠ ds.length) :
    submitWell pf s wells = (wells, SubmitOutcome.countMismatchError) := by
  simp [submitWell, hp, hne]

theorem submit_unequal_lengths_rejected_witness :
    parsedDepths pyFloat sAdd = some [1] ∧
    (parsedFormations ⟨"W1", 0, 0, "A,B", "1", none⟩).length ≠ [(1 : ℚ)].length ∧
    submitWell pyFloat ⟨"W1", 0, 0, "A,B", "1", none⟩ [] =
      ([], SubmitOutcome.countMismatchError) := by
  refine ⟨by decide, by decide, ?_⟩
  exact submit_unequal_lengths_rejected pyFloat ⟨"W1", 0, 0, "A,B", "1", none⟩ [] [1]
    (by decide) (by decide)

/-- C2: a submission whose depths text contains a token the float parser
rejects lands in the ValueError branch: the outcome is the value error and
wells_data is returned unchanged, so nothing is appended or replaced. -/
theorem submit_nonnumeric_rejected (pf : String → Option ℚ)
    (s : Submission) (wells : List Well) (tok : String)
    (hm : tok ∈ splitChar ',' s.formation_depths)
    (hf : pf (pyStrip tok) = none) :
    submitWell pf s wells = (wells, SubmitOutcome.valueError) := by
  have h : parsedDepths pf s = none := parseAll_eq_none pf _ tok hm hf
  simp [submitWell, h]

theorem submit_nonnumeric_rejected_witness :
    "abc" ∈ splitChar ',' "abc" ∧ pyFloat (pyStrip "abc") = none ∧
    submitWell pyFloat ⟨"W1", 0, 0, "A", "abc", none⟩ [wA] =
      ([wA], SubmitOutcome.valueError) := by
  refine ⟨by decide, by decide, ?_⟩
  exact submit_nonnumeric_rejected pyFloat ⟨"W1", 0, 0, "A", "abc", none⟩ [wA] "abc"
    (by decide) (by decide)

/-- C10: a submission whose depth text fails to parse is atomic: the
ValueError is raised during parsing, before any append or replacement, so
wells_data comes back exactly unchanged. -/
theorem submit_valueError_atomic (pf : String → Option ℚ)
    (s : Submission) (wells : List Well)
    (h : parsedDepths pf s = none) :
    (submitWell pf s wells).1 = wells ∧
    (submitWell pf s wells).2 = SubmitOutcome.valueError := by
  simp [submitWell, h]

theorem submit_valueError_atomic_witness :
    parsedDepths pyFloat ⟨"W1", 0, 0, "A", "abc", none⟩ = none ∧
    (submitWell pyFloat ⟨"W1", 0, 0, "A", "abc", none⟩ [wA, wB]).1 = [wA, wB] ∧
    (submitWell pyFloat ⟨"W1", 0, 0, "A", "abc", none⟩ [wA, wB]).2 =
      SubmitOutcome.valueError := by
  refine ⟨by decide, ?_⟩
  exact submit_valueError_atomic pyFloat ⟨"W1", 0, 0, "A", "abc", none⟩ [wA, wB]
    (by decide)

/-- C3: after a valid add submission, deleting with the added well's name
selected leaves no record carrying that well_name. -/
theorem add_then_delete_removed (pf : String → Option ℚ) (s : Submission)
    (wells : List Well) (ds : List ℚ)
    (h1 : s.edit_index = none)
    (h2 : parsedDepths pf s = some ds)
    (h3 : (parsedFormations s).length = ds.length) :
    ∀ w ∈ deleteWell s.well_name (submitWell pf s wells).1,
      w.well_name ≠ s.well_name := by
  intro w hw
  simp [deleteWell, List.mem_filter] at hw
  exact hw.2

theorem add_then_delete_removed_witness :
    sAdd.edit_index = none ∧
    parsedDepths pyFloat sAdd = some [1] ∧
    (parsedFormations sAdd).length = [(1 : ℚ)].length ∧
    ∀ w ∈ deleteWell sAdd.well_name (submitWell pyFloat sAdd [wA]).1,
      w.well_name ≠ sAdd.well_name := by
  refine ⟨by decide, by decide, by decide, ?_⟩
  exact add_then_delete_removed pyFloat sAdd [wA] [1] (by decide) (by decide)
    (by decide)

/-- C8: the delete handler removes every record carrying the selected name,
keeps exactly the records whose name differs, and preserves their relative
order (the result is a sublist of the input). -/
theorem delete_removes_all (n : String) (wells : List Well) :
    (∀ w ∈ deleteWell n wells, w.well_name ≠ n) ∧
    (∀ w ∈ wells, w.well_name ≠ n → w ∈ deleteWell n wells) ∧
    List.Sublist (deleteWell n wells) wells := by
  refine ⟨?_, ?_, List.filter_sublist wells⟩
  · intro w hw
    simp [deleteWell, List.mem_filter] at hw
    exact hw.2
  · intro w hw hne
    simp [deleteWell, List.mem_filter]
    exact ⟨hw, hne⟩

theorem delete_removes_all_witness :
    (∀ w ∈ deleteWell "A" [wA, wB, wA], w.well_name ≠ "A") ∧
    (∀ w ∈ [wA, wB, wA], w.well_name ≠ "A" → w ∈ deleteWell "A" [wA, wB, wA]) ∧
    List.Sublist (deleteWell "A" [wA, wB, wA]) [wA, wB, wA] :=
  delete_removes_all "A" [wA, wB, wA]

theorem mem_updateFirst (t : String) (e : Well) (l : List Well) (w : Well)
    (hw : w ∈ (updateFirst t e l).1) : w = e ∨ w ∈ l := by
  induction l with
  | nil => simp [updateFirst] at hw
  | cons a as ih =>
    by_cases h : a.well_name = t
    · simp [updateFirst, h] at hw
      rcases hw with h1 | h1
      · exact Or.inl h1
      · exact Or.inr (List.mem_cons_of_mem _ h1)
    · simp [updateFirst, h] at hw
      rcases hw with h1 | h1
      · exact Or.inr (by simp [h1])
      · rcases ih h1 with h2 | h2
        · exact Or.inl h2
        · exact Or.inr (List.mem_cons_of_mem _ h2)

theorem submitWell_parse_none (pf : String → Option ℚ) (s : Submission)
    (wells : List Well) (hp : parsedDepths pf s = none) :
    submitWell pf s wells = (wells, SubmitOutcome.valueError) := by
  simp [submitWell, hp]

theorem submitWell_len_mismatch (pf : String → Option ℚ) (s : Submission)
    (wells : List Well) (ds : List ℚ) (hp : parsedDepths pf s = some ds)
    (hlen : (parsedFormations s).length ≠ ds.length) :
    submitWell pf s wells = (wells, SubmitOutcome.countMismatchError) := by
  simp [submitWell, hp, hlen]

theorem submitWell_add_eq (pf : String → Option ℚ) (s : Submission)
    (wells : List Well) (ds : List ℚ) (hp : parsedDepths pf s = some ds)
    (hlen : (parsedFormations s).length = ds.length)
    (he : s.edit_index = none) :
    submitWell pf s wells =
      (wells ++ [newEntry s ds], SubmitOutcome.added s.well_name) := by
  simp [submitWell, hp, hlen, he]

theorem submitWell_edit_eq (pf : String → Option ℚ) (s : Submission)
    (wells : List Well) (ds : List ℚ) (t : String)
    (hp : parsedDepths pf s = some ds)
    (hlen : (parsedFormations s).length = ds.length)
    (he : s.edit_index = some t) :
    submitWell pf s wells =
      ((updateFirst t (newEntry s ds) wells).1,
        if (updateFirst t (newEntry s ds) wells).2 then SubmitOutcome.updated t
        else SubmitOutcome.editNoMatch) := by
  simp [submitWell, hp, hlen, he]

theorem submit_mem (pf : String → Option ℚ) (s : Submission)
    (wells : List Well) (w : Well) (hw : w ∈ (submitWell pf s wells).1) :
    w ∈ wells ∨ ∃ ds, parsedDepths pf s = some ds ∧
      (parsedFormations s).length = ds.length ∧ w = newEntry s ds := by
  cases hp : parsedDepths pf s with
  | none =>
    rw [submitWell_parse_none pf s wells hp] at hw
    exact Or.inl hw
  | some ds =>
    by_cases hlen : (parsedFormations s).length ≠ ds.length
    · rw [submitWell_len_mismatch pf s wells ds hp hlen] at hw
      exact Or.inl hw
    · push_neg at hlen
      cases he : s.edit_index with
      | none =>
        rw [submitWell_add_eq pf s wells ds hp hlen he] at hw
        simp at hw
        rcases hw with h | h
        · exact Or.inl h
        · exact Or.inr ⟨ds, rfl, hlen, h⟩
      | some t =>
        rw [submitWell_edit_eq pf s wells ds t hp hlen he] at hw
        simp at hw
        rcases mem_updateFirst t _ wells w hw with h | h
        · exact Or.inr ⟨ds, rfl, hlen, h⟩
        · exact Or.inl h

/-- C6: the equal-lengths invariant is preserved by every operation: any
submission (add or edit, accepted or rejected) and any delete keeps every
stored record with as many formation names as depths; a record only enters
the list after the length check of line 41 passed. -/
theorem operations_preserve_wf (pf : String → Option ℚ) (s : Submission)
    (n : String) (wells : List Well) (hwf : WF wells) :
    WF (submitWell pf s wells).1 ∧ WF (deleteWell n wells) := by
  constructor
  · intro w hw
    rcases submit_mem pf s wells w hw with h | ⟨ds, _, hlen, hne⟩
    · exact hwf w h
    · subst hne
      simpa [newEntry] using hlen
  · intro w hw
    exact hwf w (List.mem_of_mem_filter hw)

theorem operations_preserve_wf_witness :
    WF [wA] ∧ WF (submitWell pyFloat sAdd [wA]).1 ∧ WF (deleteWell "A" [wA]) := by
  have hwf : WF [wA] := by
    intro w hw
    simp at hw
    subst hw
    rfl
  exact ⟨hwf, operations_preserve_wf pyFloat sAdd "A" [wA] hwf⟩

theorem updateFirst_eq_set (t : String) (e : Well) (l : List Well)
    (h : ∃ w ∈ l, w.well_name = t) :
    (updateFirst t e l).1 = l.set (l.findIdx (fun w => w.well_name == t)) e ∧
    (updateFirst t e l).2 = true := by
  induction l with
  | nil => simp at h
  | cons a as ih =>
    by_cases ha : a.well_name = t
    · constructor
      · simp [updateFirst, ha, List.findIdx_cons]
      · simp [updateFirst, ha]
    · obtain ⟨w, hw, hwt⟩ := h
      have hmem : ∃ w ∈ as, w.well_name = t := by
        rcases List.mem_cons.mp hw with rfl | h2
        · exact absurd hwt ha
        · exact ⟨w, h2, hwt⟩
      obtain ⟨ih1, ih2⟩ := ih hmem
      have hb : (a.well_name == t) = false := by
        simp [ha]
      constructor
      · simp [updateFirst, ha, hb, List.findIdx_cons, ih1]
      · simp [updateFirst, ha, ih2]

theorem updateFirst_append (t : String) (e : Well) (pre : List Well)
    (w : Well) (post : List Well)
    (hpre : ∀ v ∈ pre, v.well_name ≠ t) (hw : w.well_name = t) :
    (updateFirst t e (pre ++ w :: post)).1 = pre ++ e :: post ∧
    (updateFirst t e (pre ++ w :: post)).2 = true := by
  induction pre with
  | nil => simp [updateFirst, hw]
  | cons a as ih =>
    have ha : a.well_name ≠ t := hpre a (by simp)
    have ih2 := ih (fun v hv => hpre v (by simp [hv]))
    constructor
    · simp [updateFirst, ha, ih2.1]
    · simp [updateFirst, ha, ih2.2]

/-- C4: a valid submission that selects an edit target present in
wells_data replaces the first record carrying that name in place (the
result is wells_data with the entry at its index overwritten), the length
is unchanged, and the update st.success message fires. -/
theorem edit_replaces_in_place (pf : String → Option ℚ) (s : Submission)
    (wells : List Well) (ds : List ℚ) (t : String)
    (hp : parsedDepths pf s = some ds)
    (hlen : (parsedFormations s).length = ds.length)
    (he : s.edit_index = some t)
    (hex : ∃ w ∈ wells, w.well_name = t) :
    (submitWell pf s wells).1 =
      wells.set (wells.findIdx (fun w => w.well_name == t)) (newEntry s ds) ∧
    (submitWell pf s wells).1.length = wells.length ∧
    (submitWell pf s wells).2 = SubmitOutcome.updated t := by
  have h := updateFirst_eq_set t (newEntry s ds) wells hex
  rw [submitWell_edit_eq pf s wells ds t hp hlen he]
  refine ⟨h.1, ?_, ?_⟩
  · simp [h.1, List.length_set]
  · simp [h.2]

theorem edit_replaces_in_place_witness :
    parsedDepths pyFloat sEdit = some [1] ∧
    (parsedFormations sEdit).length = [(1 : ℚ)].length ∧
    sEdit.edit_index = some "A" ∧
    (∃ w ∈ [wB, wA], w.well_name = "A") ∧
    ((submitWell pyFloat sEdit [wB, wA]).1 =
      [wB, wA].set ([wB, wA].findIdx (fun w => w.well_name == "A"))
        (newEntry sEdit [1]) ∧
    (submitWell pyFloat sEdit [wB, wA]).1.length = [wB, wA].length ∧
    (submitWell pyFloat sEdit [wB, wA]).2 = SubmitOutcome.updated "A") := by
  refine ⟨by decide, by decide, by decide, by decide, ?_⟩
  exact edit_replaces_in_place pyFloat sEdit [wB, wA] [1] "A" (by decide)
    (by decide) (by decide) (by decide)

/-- C9: a valid edit submission touches only the first record matching the
selected target: a well list of the form pre, first match, post becomes
pre, new entry, post, with pre and post untouched, and the stored record
takes the well_name typed into the form, not the selected target, so an
edit can rename a well. -/
theorem edit_replaces_first_only (pf : String → Option ℚ) (s : Submission)
    (ds : List ℚ) (t : String) (pre : List Well) (w : Well) (post : List Well)
    (hp : parsedDepths pf s = some ds)
    (hlen : (parsedFormations s).length = ds.length)
    (he : s.edit_index = some t)
    (hpre : ∀ v ∈ pre, v.well_name ≠ t)
    (hw : w.well_name = t) :
    (submitWell pf s (pre ++ w :: post)).1 = pre ++ newEntry s ds :: post ∧
    (newEntry s ds).well_name = s.well_name := by
  have h := updateFirst_append t (newEntry s ds) pre w post hpre hw
  rw [submitWell_edit_eq pf s (pre ++ w :: post) ds t hp hlen he]
  exact ⟨h.1, rfl⟩

theorem edit_replaces_first_only_witness :
    parsedDepths pyFloat sEdit = some [1] ∧
    (parsedFormations sEdit).length = [(1 : ℚ)].length ∧
    sEdit.edit_index = some "A" ∧
    (∀ v ∈ [wB], v.well_name ≠ "A") ∧
    wA.well_name = "A" ∧
    ((submitWell pyFloat sEdit ([wB] ++ wA :: [wA2])).1 =
      [wB] ++ newEntry sEdit [1] :: [wA2] ∧
    (newEntry sEdit [1]).well_name = sEdit.well_name) := by
  refine ⟨by decide, by decide, by decide, by decide, by decide, ?_⟩
  exact edit_replaces_first_only pyFloat sEdit [1] "A" [wB] wA [wA2] (by decide)
    (by decide) (by decide) (by decide) (by decide)

/-- C7 counterexample: well names are not a unique key. Submitting the add
form twice with the same name appends two records both named W1, so a
reachable wells_data state carries duplicate names. -/
theorem duplicate_names_reachable :
    ∃ l, Reachable l ∧ ¬ uniqNames l := by
  refine ⟨(submitWell pyFloat sAdd (submitWell pyFloat sAdd []).1).1, ?_, ?_⟩
  · exact Reachable.submit pyFloat sAdd (Reachable.submit pyFloat sAdd Reachable.init)
  · unfold uniqNames
    decide

theorem uniq_updateFirst (t : String) (e : Well) (l : List Well)
    (hn : e.well_name ∉ l.map Well.well_name) (hu : uniqNames l) :
    uniqNames (updateFirst t e l).1 := by
  induction l with
  | nil => simpa [updateFirst] using hu
  | cons a as ih =>
    have hna : e.well_name ≠ a.well_name := by
      intro hc
      exact hn (by simp [hc])
    have hn2 : e.well_name ∉ as.map Well.well_name := by
      intro hx
      exact hn (by simp [hx])
    unfold uniqNames at hu ⊢
    simp only [List.map_cons, List.nodup_cons] at hu
    by_cases ha : a.well_name = t
    · have hred : (updateFirst t e (a :: as)).1 = e :: as := by
        simp [updateFirst, ha]
      rw [hred, List.map_cons, List.nodup_cons]
      exact ⟨hn2, hu.2⟩
    · have hred : (updateFirst t e (a :: as)).1 = a :: (updateFirst t e as).1 := by
        simp [updateFirst, ha]
      rw [hred, List.map_cons, List.nodup_cons]
      refine ⟨?_, ih hn2 hu.2⟩
      intro hx
      obtain ⟨w, hw, hwe⟩ := List.mem_map.mp hx
      rcases mem_updateFirst t e as w hw with rfl | hmem
      · exact hna hwe
      · exact hu.1 (hwe ▸ List.mem_map_of_mem Well.well_name hmem)

/-- C7 amended: the code does not make well_name a unique key (duplicates
are reachable by adding the same name twice); what holds is that delete
always preserves name-uniqueness, and a submission preserves it whenever
the submitted well_name does not already occur in wells_data. -/
theorem uniq_names_conditionally_preserved (pf : String → Option ℚ)
    (s : Submission) (n : String) (wells : List Well)
    (hu : uniqNames wells) :
    uniqNames (deleteWell n wells) ∧
    (s.well_name ∉ wells.map Well.well_name →
      uniqNames (submitWell pf s wells).1) := by
  constructor
  · exact List.Nodup.sublist
      (List.Sublist.map Well.well_name (List.filter_sublist wells)) hu
  · intro hn
    cases hp : parsedDepths pf s with
    | none =>
      rw [submitWell_parse_none pf s wells hp]
      exact hu
    | some ds =>
      by_cases hlen : (parsedFormations s).length ≠ ds.length
      · rw [submitWell_len_mismatch pf s wells ds hp hlen]
        exact hu
      · push_neg at hlen
        cases he : s.edit_index with
        | none =>
          rw [submitWell_add_eq pf s wells ds hp hlen he]
          unfold uniqNames at hu ⊢
          rw [List.map_append, List.nodup_append]
          refine ⟨hu, List.nodup_singleton _, ?_⟩
          intro x hx hx2
          simp [newEntry] at hx2
          exact hn (hx2 ▸ hx)
        | some t =>
          rw [submitWell_edit_eq pf s wells ds t hp hlen he]
          exact uniq_updateFirst t (newEntry s ds) wells hn hu

theorem uniq_names_conditionally_preserved_witness :
    uniqNames [wA, wB] ∧
    sAdd.well_name ∉ ([wA, wB] : List Well).map Well.well_name ∧
    uniqNames (deleteWell "A" [wA, wB]) ∧
    uniqNames (submitWell pyFloat sAdd [wA, wB]).1 := by
  have hu : uniqNames [wA, wB] := by
    unfold uniqNames
    decide
  have hn : sAdd.well_name ∉ ([wA, wB] : List Well).map Well.well_name := by
    decide
  have h := uniq_names_conditionally_preserved pyFloat sAdd "A" [wA, wB] hu
  exact ⟨hu, hn, h.1, h.2 hn⟩

theorem linspace_length (lo hi : ℚ) (n : ℕ) : (linspace lo hi n).length = n := by
  simp [linspace]

theorem linspace_head (lo hi : ℚ) : (linspace lo hi 100).head? = some lo := by
  have h : List.range 100 = 0 :: (List.range 99).map Nat.succ :=
    List.range_succ_eq_map 99
  rw [linspace, h]
  simp

theorem linspace_getLast (lo hi : ℚ) :
    (linspace lo hi 100).getLast? = some hi := by
  have h : List.range 100 = List.range 99 ++ [99] := List.range_succ 99
  rw [linspace, h, List.map_append]
  simp only [List.map_cons, List.map_nil]
  rw [List.getLast?_concat]
  norm_num


/-- C5 counterexample: at the initial empty wells_data state the selected
formation has 0 (fewer than 3) stored points, yet the interpolation step
does not end in the warning: line 135 raises an uncaught KeyError, because
the DataFrame built from the empty map_data list has no formation column,
and the script halts before the length check of line 136. -/
theorem interp_empty_no_warning :
    ((mapData ([] : List Well)).filter
      (fun p => p.formation = "Top_Shale")).length < 3 ∧
    interpSection "Top_Shale" [] = InterpResult.keyError ∧
    interpSection "Top_Shale" [] ≠
      InterpResult.warning "Need at least 3 points for interpolation." := by
  exact ⟨by decide, by decide, by decide⟩

/-- C5 amended: when map_data is empty, line 135 raises an uncaught
KeyError and neither warning nor grid is produced; when the line-135 row
selection succeeds, fewer than 3 selected points skip the interpolation
step with the warning, and at least 3 points produce a grid of the
configured resolution: both meshgrid matrices have 100 rows of 100 nodes,
the x samples of every row run from the minimum to the maximum x of the
points, and the constant y rows run from the minimum to the maximum y. -/
theorem interpSection_spec (formation : String) (wells : List Well) :
    (mapData wells = [] →
      interpSection formation wells = InterpResult.keyError) ∧
    (∀ pts, interpPoints formation wells = some pts →
      (pts.length < 3 →
        interpSection formation wells =
          InterpResult.warning "Need at least 3 points for interpolation.") ∧
      (3 ≤ pts.length →
        ∃ gx gy, interpSection formation wells = InterpResult.grid gx gy ∧
          gx.length = 100 ∧ gy.length = 100 ∧
          (∀ r ∈ gx, r.length = 100 ∧
            r.head? = some (listMin (pts.map MapPoint.x)) ∧
            r.getLast? = some (listMax (pts.map MapPoint.x))) ∧
          (∀ r ∈ gy, r.length = 100) ∧
          gy.head? = some (List.replicate 100 (listMin (pts.map MapPoint.y))) ∧
          gy.getLast? = some (List.replicate 100 (listMax (pts.map MapPoint.y))))) := by
  constructor
  · intro h
    simp [interpSection, interpPoints, h]
  · intro pts hp
    constructor
    · intro h
      simp only [interpSection, hp]
      rw [if_neg (by omega)]
    · intro h
      simp only [interpSection, hp, meshgrid]
      rw [if_pos (by omega)]
      refine ⟨_, _, rfl, ?_, ?_, ?_, ?_, ?_, ?_⟩
      · simp [linspace_length]
      · simp [linspace_length]
      · intro r hr
        rcases List.mem_map.mp hr with ⟨a, ha, rfl⟩
        exact ⟨linspace_length _ _ _, linspace_head _ _, linspace_getLast _ _⟩
      · intro r hr
        rcases List.mem_map.mp hr with ⟨a, ha, rfl⟩
        simp [linspace_length]
      · rw [List.head?_map, linspace_head]
        simp [List.map_const', linspace_length]
      · rw [List.getLast?_map, linspace_getLast]
        simp [List.map_const', linspace_length]

theorem interpSection_spec_witness :
    (mapData ([] : List Well) = [] ∧
      interpSection "Top_Shale" [] = InterpResult.keyError) ∧
    (interpPoints "Sand_A" demoWells = some [] ∧
      interpSection "Sand_A" demoWells =
        InterpResult.warning "Need at least 3 points for interpolation.") ∧
    (interpPoints "Top_Shale" demoWells = some demoPts ∧ 3 ≤ demoPts.length ∧
      ∃ gx gy, interpSection "Top_Shale" demoWells = InterpResult.grid gx gy ∧
        gx.length = 100 ∧ gy.length = 100 ∧
        (∀ r ∈ gx, r.length = 100 ∧
          r.head? = some (listMin (demoPts.map MapPoint.x)) ∧
          r.getLast? = some (listMax (demoPts.map MapPoint.x))) ∧
        (∀ r ∈ gy, r.length = 100) ∧
        gy.head? = some (List.replicate 100 (listMin (demoPts.map MapPoint.y))) ∧
        gy.getLast? = some (List.replicate 100 (listMax (demoPts.map MapPoint.y)))) := by
  refine ⟨⟨by decide, ?_⟩, ⟨by decide, ?_⟩, ⟨by decide, by decide, ?_⟩⟩
  · exact (interpSection_spec "Top_Shale" []).1 (by decide)
  · exact ((interpSection_spec "Sand_A" demoWells).2 [] (by decide)).1 (by decide)
  · exact ((interpSection_spec "Top_Shale" demoWells).2 demoPts (by decide)).2
      (by decide)
